import Mathlib

/-!
Verification of the `tevm` in-process Ethereum simulator (package `tevm`,
file `transport.go`): a shallow embedding of its data model (versioned
key-value trees, the EVM state adapter, the chain driver and the JSON-RPC
parameter plumbing) together with theorems settling the specification
claims.  Bytes are modelled as `List Nat` (each element `< 256` by
construction), Go machine words as `Nat`/`Int` with explicit reductions
where overflow is observable.
-/

namespace Tevm

/-- Little-endian 8-byte encoding of a 64-bit word
(Go `binary.LittleEndian.PutUint64` in `n2h`); only the low 64 bits of the
argument are observed, as in Go's `uint64`. -/
def le64 (u : Nat) : List Nat :=
  (List.range 8).map fun i => (u >>> (8 * i)) % 256

/-- Value of a little-endian byte string (used to load Keccak lanes). -/
def leVal (bs : List Nat) : Nat :=
  bs.foldr (fun b acc => b + 256 * acc) 0

/-- Big-endian value of a byte string (Go `binary.BigEndian.Uint64` and
`big.Int.SetBytes`, used by the `Account` accessors). -/
def beVal (bs : List Nat) : Nat :=
  bs.foldl (fun acc b => 256 * acc + b) 0

/-- Rotate a 64-bit lane left by `n` bits. -/
def rotl64 (x n : Nat) : Nat :=
  (((x % 2 ^ 64) <<< (n % 64)) ||| ((x % 2 ^ 64) >>> (64 - n % 64))) % 2 ^ 64

/-- Lane access in a Keccak state (25 lanes, index `x + 5*y`). -/
def lane (A : List Nat) (i : Nat) : Nat := A.getD i 0

/-- Keccak θ step. -/
def keccakTheta (A : List Nat) : List Nat :=
  let C := (List.range 5).map fun x =>
    lane A x ^^^ lane A (x + 5) ^^^ lane A (x + 10) ^^^ lane A (x + 15) ^^^ lane A (x + 20)
  let D := (List.range 5).map fun x =>
    lane C ((x + 4) % 5) ^^^ rotl64 (lane C ((x + 1) % 5)) 1
  (List.range 25).map fun i => lane A i ^^^ lane D (i % 5)

/-- Keccak ρ rotation offsets, indexed by `x + 5*y`, computed from the
standard recurrence: walking the π trajectory from lane `(1, 0)`, the lane
visited at step `t` is rotated by the triangular number `(t+1)(t+2)/2`
modulo 64. -/
def keccakRho : List Nat :=
  (List.range 24).foldl
    (fun st t =>
      let x := st.2.1
      let y := st.2.2
      (st.1.set (x + 5 * y) ((t + 1) * (t + 2) / 2 % 64), y, (2 * x + 3 * y) % 5))
    (List.replicate 25 0, 1, 0)
  |>.1

/-- Keccak ρ and π steps: `B[y, (2x+3y) mod 5] = rotl(A[x, y], r[x, y])`. -/
def keccakRhoPi (A : List Nat) : List Nat :=
  (List.range 25).foldl
    (fun B i =>
      let x := i % 5
      let y := i / 5
      B.set (y + 5 * ((2 * x + 3 * y) % 5)) (rotl64 (lane A i) (lane keccakRho i)))
    (List.replicate 25 0)

/-- Keccak χ step. -/
def keccakChi (A : List Nat) : List Nat :=
  (List.range 25).map fun i =>
    let x := i % 5
    let y := i / 5
    lane A i ^^^
      ((0xFFFFFFFFFFFFFFFF ^^^ lane A ((x + 1) % 5 + 5 * y)) &&& lane A ((x + 2) % 5 + 5 * y))

/-- Keccak ι step: xor a round constant into lane 0. -/
def keccakIotaStep (A : List Nat) (rc : Nat) : List Nat :=
  A.set 0 (lane A 0 ^^^ rc)

/-- The state of the degree-8 LFSR (feedback polynomial
`x^8 + x^6 + x^5 + x^4 + 1`) that generates the ι round-constant bits,
after `t` steps from the initial state 1. -/
def keccakLfsr : Nat → Nat
  | 0 => 1
  | t + 1 =>
    let r := keccakLfsr t <<< 1
    if r &&& 0x100 ≠ 0 then (r ^^^ 0x171) &&& 0xFF else r &&& 0xFF

/-- The 24 Keccak-f[1600] round constants: round `i` places LFSR output
bit `7*i + j` at lane position `2^j - 1` for `j = 0, ..., 6`. -/
def keccakRC : List Nat :=
  (List.range 24).map fun i =>
    (List.range 7).foldl
      (fun acc j => acc + (keccakLfsr (7 * i + j) &&& 1) * 2 ^ (2 ^ j - 1)) 0

/-- The Keccak-f[1600] permutation (24 rounds). -/
def keccakF (A : List Nat) : List Nat :=
  keccakRC.foldl (fun st rc => keccakIotaStep (keccakChi (keccakRhoPi (keccakTheta st))) rc) A

/-- Original Keccak multi-rate padding (domain byte `0x01`, as used by
Ethereum's Keccak-256, rate 136 bytes). -/
def keccakPad (msg : List Nat) : List Nat :=
  let p := 136 - msg.length % 136
  if p = 1 then msg ++ [0x81]
  else msg ++ 0x01 :: (List.replicate (p - 2) 0 ++ [0x80])

/-- Absorb one 136-byte block into the sponge state and permute. -/
def absorbBlock (st blk : List Nat) : List Nat :=
  keccakF ((List.range 25).map fun i =>
    lane st i ^^^ (if i < 17 then leVal ((blk.drop (8 * i)).take 8) else 0))

/-- Keccak-256 of a byte string.  This is the hashing primitive the spec
names for `seth.HashBytes`: the simulator's synthetic block and transaction
identifiers are Keccak-256 digests. -/
def keccak256 (msg : List Nat) : List Nat :=
  let padded := keccakPad msg
  let st := (List.range (padded.length / 136)).foldl
    (fun st i => absorbBlock st ((padded.drop (136 * i)).take 136))
    (List.replicate 25 0)
  ((List.range 4).map fun i => le64 (lane st i)).flatten

/-- `seth.HashBytes`: Keccak-256 of the bytes (used for code hashes, state
keys and the synthetic identifiers). -/
def hashBytes (b : List Nat) : List Nat := keccak256 b

/-- `n2h` (transport.go): the synthetic hash of a 64-bit number, Keccak-256
of its little-endian 8-byte encoding. -/
def n2h (u : Nat) : List Nat := keccak256 (le64 u)

/-- Association-list lookup: the value under the first matching key. -/
def lookupA {κ α : Type} [DecidableEq κ] : List (κ × α) → κ → Option α
  | [], _ => none
  | (k', v) :: rest, k => if k' = k then some v else lookupA rest k

/-- Association-list update: replace the binding of `k` (or append it). -/
def setA {κ α : Type} [DecidableEq κ] : List (κ × α) → κ → α → List (κ × α)
  | [], k, v => [(k, v)]
  | (k', v') :: rest, k, v => if k' = k then (k, v) :: rest else (k', v') :: setA rest k v

/-- Association-list removal of every binding of `k`. -/
def delA {κ α : Type} [DecidableEq κ] : List (κ × α) → κ → List (κ × α)
  | [], _ => []
  | (k', v') :: rest, k => if k' = k then delA rest k else (k', v') :: delA rest k

/-- Modelled from the spec: the versioned key-value `Tree` (its source file
is not under `src/`; §4.1 of the spec describes it as a current logical map
paired with an append-only journal of `(key, old-value-or-tombstone)`
entries, a snapshot being the journal length).  The journal is kept newest
entry first, so `snapshot` is its length and `rollback` undoes a prefix. -/
structure Tree (α : Type) where
  entries : List (List Nat × α)
  journal : List (List Nat × Option α)
deriving DecidableEq

/-- The empty tree (a zero-valued Go `Tree`). -/
def Tree.empty {α : Type} : Tree α := ⟨[], []⟩

/-- `Tree.Get`: the value under a key, or absent. -/
def Tree.get {α : Type} (t : Tree α) (k : List Nat) : Option α :=
  lookupA t.entries k

/-- `Tree.Insert`: set a key, journalling the previous value. -/
def Tree.insert {α : Type} (t : Tree α) (k : List Nat) (v : α) : Tree α :=
  { entries := setA t.entries k v, journal := (k, t.get k) :: t.journal }

/-- `Tree.Delete`: remove a key, journalling the previous value; deleting an
absent key is a no-op (the spec's invariant (d) allows either shape and
demands only post-rollback equivalence). -/
def Tree.delete {α : Type} (t : Tree α) (k : List Nat) : Tree α :=
  match t.get k with
  | none => t
  | some v => { entries := delA t.entries k, journal := (k, some v) :: t.journal }

/-- `Tree.Snapshot`: the current version, i.e. the journal length. -/
def Tree.snapshot {α : Type} (t : Tree α) : Nat := t.journal.length

/-- Undo a list of journal entries, newest first. -/
def undoJournal {α : Type} (entries : List (List Nat × α)) :
    List (List Nat × Option α) → List (List Nat × α)
  | [] => entries
  | (k, old) :: rest =>
    undoJournal (match old with
      | none => delA entries k
      | some v => setA entries k v) rest

/-- `Tree.Rollback`: restore the contents at version `h`, replaying the
journal entries above `h` in reverse and truncating the journal. -/
def Tree.rollback {α : Type} (t : Tree α) (h : Nat) : Tree α :=
  let k := t.journal.length - h
  { entries := undoJournal t.entries (t.journal.take k), journal := t.journal.drop k }

/-- `Tree.CopyAt`: an independent tree whose contents are those at version
`h`, with a fresh (empty) journal. -/
def Tree.copyAt {α : Type} (t : Tree α) (h : Nat) : Tree α :=
  { entries := (t.rollback h).entries, journal := [] }

/-- Go `copy(dst[:], v)` into a zeroed `n`-byte array: pad with zeros on the
right, truncate at `n`. -/
def pad (n : Nat) (v : List Nat) : List Nat :=
  (v ++ List.replicate n 0).take n

/-- `Account.Balance` on the raw 41-byte record: big-endian value of the
first 32 bytes (`big.Int.SetBytes(a[:32])`). -/
def acctBalance (v : List Nat) : Nat := beVal (v.take 32)

/-- `Account.Nonce`: big-endian value of bytes 32..39. -/
def acctNonce (v : List Nat) : Nat := beVal ((v.drop 32).take 8)

/-- `Account.Suicided`: byte 40 is non-zero. -/
def acctSuicided (v : List Nat) : Bool := v.getD 40 0 != 0

/-- `AccountTree.GetAccount`: copy the stored bytes into a zeroed 41-byte
record; the boolean reports whether the stored value had exactly 41 bytes
(`len(v) == len(acct)`; an absent key yields `nil`, hence `false`). -/
def getAccount (t : Tree (List Nat)) (a : List Nat) : List Nat × Bool :=
  let v := (t.get a).getD []
  (pad 41 v, v.length == 41)

/-- A log entry.  `types.Log` and `seth.Log` are modelled by this single
record (the field-for-field copy `l2l` is the identity on it). -/
structure Log where
  address : List Nat
  topics : List (List Nat)
  data : List Nat
  blockNumber : Nat
deriving DecidableEq

/-- The fields of `seth.Transaction` that the chain driver reads or
writes. -/
structure Tx where
  toAddr : Option (List Nat)
  fromAddr : List Nat
  gas : Nat
  value : Nat
  input : List Nat
  txIndex : Option Nat
  block : List Nat
  blockNumber : Nat
  hash : List Nat
deriving DecidableEq

/-- The fields of `seth.Receipt` that `Mine` populates. -/
structure Receipt where
  hash : List Nat
  index : Nat
  gasUsed : Nat
  cumulative : Nat
  logs : List Log
  address : Option (List Nat)
deriving DecidableEq

/-- The fields of `seth.Block` that the chain driver reads or writes.
`transactions` holds the JSON-encoded transaction hashes (`js(&tx.Hash)`),
modelled by the hashes themselves. -/
structure Block where
  number : Nat
  hash : List Nat
  parent : List Nat
  gasLimit : Nat
  gasUsed : Nat
  transactions : List (List Nat)
  timestamp : Nat
  difficulty : Int
deriving DecidableEq

/-- A composite snapshot descriptor (`statesnap`): the refund plus the
sub-tree handles and the log prefix length. -/
structure StateSnap where
  refund : Int
  accounts : Nat
  code : Nat
  state : Nat
  loglen : Nat
  txs : Nat
  rxs : Nat
deriving DecidableEq

/-- The portion of `State` visible through the `vm.StateDB` adapter
(`gethState`): every field some `gethState` method touches.  The `Pending`
block and the `Blocks` tree live in `State` below — no adapter method
reads or writes them, which is how `Mine`'s frame condition is expressed. -/
structure VMState where
  refund : Int
  accounts : Tree (List Nat)
  code : Tree (List Nat)
  storage : Tree (List Nat)
  preimage : Tree (List Nat)
  transactions : Tree Tx
  receipts : Tree Receipt
  logs : List Log
  snapshots : List StateSnap
deriving DecidableEq

/-- A zero-valued `VMState` (fresh trees, no logs, no snapshots). -/
def emptyVM : VMState :=
  { refund := 0, accounts := Tree.empty, code := Tree.empty, storage := Tree.empty,
    preimage := Tree.empty, transactions := Tree.empty, receipts := Tree.empty,
    logs := [], snapshots := [] }

/-- The full `State`: the adapter-visible part plus the pending block and
the sealed-blocks tree. -/
structure State where
  vm : VMState
  pending : Block
  blocks : Tree Block
deriving DecidableEq

/-- `gethState.GetBalance`. -/
def VMState.getBalance (s : VMState) (a : List Nat) : Nat :=
  acctBalance (getAccount s.accounts a).1

/-- `gethState.GetNonce`. -/
def VMState.getNonce (s : VMState) (a : List Nat) : Nat :=
  acctNonce (getAccount s.accounts a).1

/-- `gethState.GetCode` (`CodeTree.GetCode`; an absent key yields `nil`). -/
def VMState.getCode (s : VMState) (a : List Nat) : List Nat :=
  (s.code.get a).getD []

/-- `gethState.GetCodeSize`. -/
def VMState.getCodeSize (s : VMState) (a : List Nat) : Nat :=
  (s.getCode a).length

/-- `gethState.Exist`: the account record is present (with its 41 bytes). -/
def VMState.exist (s : VMState) (a : List Nat) : Bool :=
  (getAccount s.accounts a).2

/-- `gethState.Empty`. -/
def VMState.isEmpty (s : VMState) (a : List Nat) : Bool :=
  let p := getAccount s.accounts a
  !p.2 || (acctNonce p.1 == 0 && acctBalance p.1 == 0 && (s.getCode a).length == 0)

/-- `gethState.Suicide`: set the suicide flag on an existing, not yet
suicided account; report whether anything was done. -/
def VMState.suicide (s : VMState) (a : List Nat) : VMState × Bool :=
  let p := getAccount s.accounts a
  if !p.2 || acctSuicided p.1 then (s, false)
  else ({ s with accounts := s.accounts.insert a (p.1.set 40 1) }, true)

/-- `gethState.HasSuicided`. -/
def VMState.hasSuicided (s : VMState) (a : List Nat) : Bool :=
  let p := getAccount s.accounts a
  p.2 && acctSuicided p.1

/-- `stateKey`: the storage key for `(address, slot)` is the Keccak-256 of
the 20 address bytes followed by the 32 slot bytes. -/
def stateKey (a k : List Nat) : List Nat :=
  hashBytes (a ++ k)

/-- The all-zero 32-byte word (`zerohash`). -/
def zeroHash : List Nat := List.replicate 32 0

/-- `gethState.GetState`: copy the stored bytes into a zeroed 32-byte word
(absent keys yield the zero hash). -/
def VMState.getState (s : VMState) (a k : List Nat) : List Nat :=
  pad 32 ((s.storage.get (stateKey a k)).getD [])

/-- `gethState.SetState`: writing the all-zero word deletes the entry,
anything else inserts it. -/
def VMState.setState (s : VMState) (a k v : List Nat) : VMState :=
  let h := stateKey a k
  if v = zeroHash then { s with storage := s.storage.delete h }
  else { s with storage := s.storage.insert h v }

/-- `gethState.AddLog`: append to the log sequence. -/
def VMState.addLog (s : VMState) (l : Log) : VMState :=
  { s with logs := s.logs ++ [l] }

/-- `gethState.Snapshot`: push a composite descriptor and return its stack
position. -/
def VMState.snapshotOp (s : VMState) : VMState × Nat :=
  let snap : StateSnap :=
    { refund := s.refund, accounts := s.accounts.snapshot, code := s.code.snapshot,
      state := s.storage.snapshot, loglen := s.logs.length,
      txs := s.transactions.snapshot, rxs := s.receipts.snapshot }
  ({ s with snapshots := s.snapshots ++ [snap] }, s.snapshots.length)

/-- `gethState.RevertToSnapshot`: roll every sub-tree back to the captured
handle, restore the refund and truncate the logs; `none` models the panic
on an out-of-range handle.  The snapshot stack itself is left untouched:
this mirrors the source, whose truncation `snaps = snaps[:v]` assigns to a
local slice variable and never writes `s.snapshots`. -/
def VMState.revertToSnapshot (s : VMState) (v : Int) : Option VMState :=
  if h : 0 ≤ v ∧ v.toNat < s.snapshots.length then
    let ns := s.snapshots.get ⟨v.toNat, h.2⟩
    some { s with
      refund := ns.refund,
      accounts := s.accounts.rollback ns.accounts,
      code := s.code.rollback ns.code,
      storage := s.storage.rollback ns.state,
      transactions := s.transactions.rollback ns.txs,
      receipts := s.receipts.rollback ns.rxs,
      logs := s.logs.take ns.loglen }
  else none

/-- `State.atSnap`: an independent `VMState` whose trees are `copyAt` of
the source at composite snapshot `n`, with the log prefix and the snapshot
stack truncated (`Preimage` is not copied by the source either); `none`
models the panic on an out-of-range handle.  The source's `n < 0` branch is
unreachable here because composite handles are stack positions. -/
def VMState.atSnap (s : VMState) (n : Nat) : Option VMState :=
  if h : n < s.snapshots.length then
    let ns := s.snapshots.get ⟨n, h⟩
    some { refund := s.refund,
           accounts := s.accounts.copyAt ns.accounts,
           code := s.code.copyAt ns.code,
           storage := s.storage.copyAt ns.state,
           preimage := Tree.empty,
           transactions := s.transactions.copyAt ns.txs,
           receipts := s.receipts.copyAt ns.rxs,
           logs := s.logs.take ns.loglen,
           snapshots := s.snapshots.take n }
  else none

/-- A log filter (`filter`): the recorded range and criteria plus the
delivery cursor `lastlog`. -/
structure Filter where
  fromBlock : Int
  toBlock : Int
  addr : Option (List Nat)
  topics : List (Option (List Nat))
  lastlog : Nat
deriving DecidableEq

/-- Modelled from the spec: topic matching (the `filter.matches` source is
not under `src/`; §4.3: for every non-nil topic position in the filter the
log's topic at that position equals it, extra log topics are allowed and
unset filter topics match anything). -/
def topicsMatch : List (Option (List Nat)) → List (List Nat) → Bool
  | [], _ => true
  | none :: fs, [] => topicsMatch fs []
  | none :: fs, _ :: ls => topicsMatch fs ls
  | some _ :: _, [] => false
  | some t :: fs, l :: ls => t == l && topicsMatch fs ls

/-- Modelled from the spec: `filter.matches` (§4.3) — the log's block
number lies in `[from, to]`, its address equals the filter address if one
is set, and the topics match positionally. -/
def Filter.matches (f : Filter) (l : Log) : Bool :=
  decide (f.fromBlock ≤ (l.blockNumber : Int)) &&
  decide ((l.blockNumber : Int) ≤ f.toBlock) &&
  (match f.addr with
   | none => true
   | some a => a == l.address) &&
  topicsMatch f.topics l.topics

/-- A `Chain`: the state, the block-number-to-snapshot index, and the
filter registry. -/
structure Chain where
  state : State
  block2snap : List (Int × Nat)
  filtcount : Nat
  filters : List (Nat × Filter)
deriving DecidableEq

/-- `Chain.newFilter`: reject `from > to`, otherwise allocate the next
filter id and install the filter with a zero cursor. -/
def Chain.newFilter (c : Chain) (fromB toB : Int) (addr : Option (List Nat))
    (topics : List (Option (List Nat))) : Except String (Nat × Chain) :=
  if fromB > toB then .error "cannot filter block range"
  else
    let id := c.filtcount + 1
    let filt : Filter := { fromBlock := fromB, toBlock := toB, addr := addr,
                           topics := topics, lastlog := 0 }
    .ok (id, { c with filtcount := id, filters := setA c.filters id filt })

/-- `Chain.filterChanges`: deliver the matching logs past the cursor and
advance the cursor by the length of the examined suffix. -/
def Chain.filterChanges (c : Chain) (fd : Nat) : Except String (List Log × Chain) :=
  match lookupA c.filters fd with
  | none => .error "bad filter id"
  | some filt =>
    let sub := c.state.vm.logs.drop filt.lastlog
    let out := sub.filter filt.matches
    let filt1 : Filter := { filt with lastlog := filt.lastlog + sub.length }
    .ok (out, { c with filters := setA c.filters fd filt1 })

/-- `Chain.filterLogs`: every matching log, ignoring the cursor. -/
def Chain.filterLogs (c : Chain) (fd : Nat) : Except String (List Log) :=
  match lookupA c.filters fd with
  | none => .error "bad filter id"
  | some filt => .ok (c.state.vm.logs.filter filt.matches)

/-- `Chain.deleteFilter`: remove the id, report whether it was present. -/
def Chain.deleteFilter (c : Chain) (fd : Nat) : Bool × Chain :=
  let filters := delA c.filters fd
  (filters.length != c.filters.length, { c with filters := filters })

/-- `blocknum.UnmarshalJSON` on the raw parameter text: the three block
tags resolve to `-1`, `-2` and `0`; anything else must parse as a 64-bit
decimal integer (`strconv.ParseInt(buf, 10, 64)`). -/
def unmarshalBlocknum (buf : String) : Except String Int :=
  if buf = "\"pending\"" then .ok (-1)
  else if buf = "\"latest\"" then .ok (-2)
  else if buf = "\"earliest\"" then .ok 0
  else
    match buf.toInt? with
    | some i => if -(2 ^ 63) ≤ i ∧ i < 2 ^ 63 then .ok i else .error "value out of range"
    | none => .error "invalid syntax"

/-- The outcome of the EVM call or create performed inside `Mine`
(`vm.Create` / `vm.Call`): return data, the created contract address,
remaining gas, and the interpreter's error if any.  The interpreter itself
is the external collaborator; `Mine` is parametrised by its behaviour as a
function on the adapter-visible state. -/
structure EvmRes where
  ret : List Nat
  addr : List Nat
  gasLeft : Nat
  err : Option String
deriving DecidableEq

/-- Go `uint64` subtraction (wrap-around), for `tx.Gas - gas`. -/
def sub64 (a b : Nat) : Nat :=
  (a % 2 ^ 64 + (2 ^ 64 - b % 2 ^ 64)) % 2 ^ 64

/-- `Chain.Mine`: run the EVM call or create; on error return it with no
further changes; on success update the pending block's gas-used, assign the
transaction index and the synthetic transaction hash
(`seth.HashBytes(n2h(blocknum | txidx << 48))`), build the receipt from the
logs appended during the call, append the hash to the pending block's
transaction list and insert the transaction and receipt records. -/
def Chain.mine (evm : VMState → VMState × EvmRes) (c : Chain) (tx : Tx) :
    Chain × Except String (List Nat × List Nat) :=
  let l0 := c.state.vm.logs.length
  let pr := evm c.state.vm
  let c1 : Chain := { c with state := { c.state with vm := pr.1 } }
  match pr.2.err with
  | some e => (c1, .error e)
  | none =>
    let used := sub64 tx.gas pr.2.gasLeft
    let b := c.state.pending
    let gasUsed := (b.gasUsed + used) % 2 ^ 64
    let idx := b.transactions.length
    let bh := n2h ((b.number % 2 ^ 64) ||| ((idx <<< 48) % 2 ^ 64))
    let txh := hashBytes bh
    let tx1 : Tx := { tx with txIndex := some idx, block := b.hash,
                              blockNumber := b.number, hash := txh }
    let rx : Receipt := { hash := txh, index := idx, gasUsed := used,
                          cumulative := gasUsed, logs := pr.1.logs.drop l0,
                          address := if tx.toAddr = none then some pr.2.addr else none }
    let pending : Block := { b with gasUsed := gasUsed,
                                    transactions := b.transactions ++ [txh] }
    ({ c with state :=
        { vm := { pr.1 with transactions := pr.1.transactions.insert txh tx1,
                            receipts := pr.1.receipts.insert txh rx },
          pending := pending,
          blocks := c.state.blocks } },
     .ok (pr.2.ret, txh))

/-- `Chain.Seal` (timestamp passed in for `time.Now`): snapshot the state,
record `block2snap[number]`, store the pending block under its synthetic
hash, and install a fresh pending block with the next number. -/
def Chain.seal (c : Chain) (t : Nat) : Chain :=
  let b := c.state.pending
  let pr := c.state.vm.snapshotOp
  { c with
    block2snap := setA c.block2snap (b.number : Int) pr.2,
    state :=
      { vm := pr.1,
        blocks := c.state.blocks.insert b.hash b,
        pending := { number := b.number + 1, hash := n2h (b.number + 1),
                     parent := b.hash, gasLimit := b.gasLimit, gasUsed := 0,
                     transactions := [], timestamp := t, difficulty := 0 } } }

/-- Go's `uint64(n)` on an `int64`: two's-complement wrap into `[0, 2^64)`. -/
def u64ofInt (i : Int) : Nat := (i % (2 ^ 64 : Int)).toNat

/-- The tail of `Chain.AtBlock` once a snapshot handle is known: fetch the
sealed block under its synthetic hash and reconstruct a child chain from
the snapshot, sharing `block2snap` (the fresh child has no filters and an
empty `Blocks` tree, as `new(Chain)` starts zeroed); `none` both for a
missing block and for the (normally unreachable) out-of-range handle
panic. -/
def Chain.atBlockSnap (c : Chain) (n : Int) (snap : Nat) : Option Chain :=
  match c.state.blocks.get (n2h (u64ofInt n)) with
  | none => none
  | some nb =>
    match c.state.vm.atSnap snap with
    | none => none
    | some vm =>
      some { state := { vm := vm, pending := nb, blocks := Tree.empty },
             block2snap := c.block2snap, filtcount := 0, filters := [] }

/-- `Chain.AtBlock`: `-1`/the pending number yield the receiver; the
latest block (`-2` or `pending - 1`) yields the reconstructed chain when
`block2snap` knows it and otherwise falls through to the pending case; any
other number is looked up in `block2snap` and yields `none` when absent. -/
def Chain.atBlock (c : Chain) (n : Int) : Option Chain :=
  let pending : Int := (c.state.pending.number : Int)
  if n = pending - 1 ∨ n = -2 then
    match lookupA c.block2snap (pending - 1) with
    | some s => c.atBlockSnap (pending - 1) s
    | none => some c
  else if n = pending ∨ n = -1 then some c
  else
    match lookupA c.block2snap n with
    | none => none
    | some s => c.atBlockSnap n s

/-! Helper lemmas about the association lists and byte-list surgery used by
the embedding. -/

theorem lookupA_setA_self {κ α : Type} [DecidableEq κ] (m : List (κ × α)) (k : κ) (v : α) :
    lookupA (setA m k v) k = some v := by
  induction m with
  | nil => simp [setA, lookupA]
  | cons p rest ih =>
    obtain ⟨k', v'⟩ := p
    by_cases h : k' = k
    · simp [setA, h, lookupA]
    · simp [setA, h, lookupA, ih]

theorem lookupA_setA_ne {κ α : Type} [DecidableEq κ] (m : List (κ × α)) (k k' : κ) (v : α)
    (h : k' ≠ k) : lookupA (setA m k v) k' = lookupA m k' := by
  have h' : ¬k = k' := fun he => h he.symm
  induction m with
  | nil => simp [setA, lookupA, h']
  | cons p rest ih =>
    obtain ⟨k1, v1⟩ := p
    by_cases h1 : k1 = k
    · subst h1
      simp [setA, lookupA, h']
    · simp [setA, h1, lookupA, ih]

theorem lookupA_delA_self {κ α : Type} [DecidableEq κ] (m : List (κ × α)) (k : κ) :
    lookupA (delA m k) k = none := by
  induction m with
  | nil => simp [delA, lookupA]
  | cons p rest ih =>
    obtain ⟨k', v'⟩ := p
    by_cases h : k' = k
    · simp [delA, h, ih]
    · simp [delA, h, lookupA, ih]

theorem Tree.get_insert_self {α : Type} (t : Tree α) (k : List Nat) (v : α) :
    (t.insert k v).get k = some v :=
  lookupA_setA_self t.entries k v

theorem Tree.get_insert_ne {α : Type} (t : Tree α) (k k' : List Nat) (v : α)
    (h : k' ≠ k) : (t.insert k v).get k' = t.get k' :=
  lookupA_setA_ne t.entries k k' v h

theorem Tree.get_delete_self {α : Type} (t : Tree α) (k : List Nat) :
    (t.delete k).get k = none := by
  unfold Tree.delete
  cases h : t.get k with
  | none => simp [h]
  | some v => simpa [h, Tree.get] using lookupA_delA_self t.entries k

theorem getD_set_self {α : Type} (l : List α) (i : Nat) (x d : α) (h : i < l.length) :
    (l.set i x).getD i d = x := by
  induction l generalizing i with
  | nil => simp at h
  | cons a l ih =>
    cases i with
    | zero => simp
    | succ n => simpa [List.getD] using ih n (by simpa using h)

theorem take_set_of_le {α : Type} (l : List α) (i n : Nat) (x : α) (h : n ≤ i) :
    (l.set i x).take n = l.take n := by
  induction l generalizing i n with
  | nil => simp
  | cons a l ih =>
    cases n with
    | zero => simp
    | succ m =>
      cases i with
      | zero => omega
      | succ j => simp [ih j m (by omega)]

theorem drop_set_of_le {α : Type} (l : List α) (i n : Nat) (x : α) (h : n ≤ i) :
    (l.set i x).drop n = (l.drop n).set (i - n) x := by
  induction l generalizing i n with
  | nil => simp
  | cons a l ih =>
    cases n with
    | zero => simp
    | succ m =>
      cases i with
      | zero => omega
      | succ j =>
        simp only [List.set_cons_succ, List.drop_succ_cons, Nat.succ_sub_succ]
        exact ih j m (by omega)

theorem pad_eq_self (n : Nat) (l : List Nat) (h : l.length = n) : pad n l = l := by
  unfold pad
  subst h
  exact List.take_left l _

/-! The claims. -/

/-- Claim C4: for every address `a` and slot `k`, `SetState(a, k, 0)` (the
all-zero 32-byte value) deletes the storage entry — afterwards the Storage
tree holds no value under `keccak256(a ++ k)` and `GetState(a, k)` returns
the zero hash. -/
theorem setState_zero_deletes (s : VMState) (a k : List Nat) :
    (s.setState a k zeroHash).storage.get (stateKey a k) = none ∧
    (s.setState a k zeroHash).getState a k = zeroHash := by
  have h1 : (s.setState a k zeroHash).storage.get (stateKey a k) = none := by
    unfold VMState.setState
    simp [Tree.get_delete_self]
  refine ⟨h1, ?_⟩
  unfold VMState.getState
  rw [h1]
  simp [pad, zeroHash, List.take_replicate]

/-- Claim C6: for every address `a`, `Empty(a)` returns true iff the
account does not exist, or its nonce is 0, its balance is zero, and its
code has zero length. -/
theorem empty_iff (s : VMState) (a : List Nat) :
    s.isEmpty a = true ↔
      (s.exist a = false ∨
        (s.getNonce a = 0 ∧ s.getBalance a = 0 ∧ s.getCodeSize a = 0)) := by
  unfold VMState.isEmpty VMState.exist VMState.getNonce VMState.getBalance VMState.getCodeSize
  cases hb : (getAccount s.accounts a).2 <;> simp [hb, and_assoc]

/-- Dummy composite snapshot descriptor used to exhibit claim C1's failing
run. -/
def snap0 : StateSnap :=
  { refund := 0, accounts := 0, code := 0, state := 0, loglen := 0, txs := 0, rxs := 0 }

/-- A state that has taken two composite snapshots (handles 0 and 1). -/
def vmTwoSnaps : VMState := { emptyVM with snapshots := [snap0, snap0] }

/-- Claim C1 (the code contradicts its own comment): after
`RevertToSnapshot(0)` the composite-snapshot stack still has both
descriptors — the truncation `snaps = snaps[:v]` writes a dead local — so
the later `RevertToSnapshot(1)` is accepted and rolls forward instead of
being a precondition violation. -/
theorem revertToSnapshot_keeps_stack :
    ((vmTwoSnaps.revertToSnapshot 0).map fun s => s.snapshots.length) = some 2 ∧
    ((vmTwoSnaps.revertToSnapshot 0).bind fun s => s.revertToSnapshot 1).isSome = true := by
  decide

/-- Claim C7: for every existing account `a`, `Suicide(a)` leaves
`HasSuicided(a)` true, keeps the account in existence with its balance,
nonce and code unchanged, and modifies nothing but that one account's
suicide flag (all other accounts and every other state component are
untouched). -/
theorem suicide_frame (s : VMState) (a : List Nat) (h : s.exist a = true) :
    (s.suicide a).1.hasSuicided a = true ∧
    (s.suicide a).1.exist a = true ∧
    (s.suicide a).1.getBalance a = s.getBalance a ∧
    (s.suicide a).1.getNonce a = s.getNonce a ∧
    (s.suicide a).1.getCode a = s.getCode a ∧
    (∀ b, b ≠ a → (s.suicide a).1.accounts.get b = s.accounts.get b) ∧
    (s.suicide a).1.code = s.code ∧
    (s.suicide a).1.storage = s.storage ∧
    (s.suicide a).1.preimage = s.preimage ∧
    (s.suicide a).1.transactions = s.transactions ∧
    (s.suicide a).1.receipts = s.receipts ∧
    (s.suicide a).1.logs = s.logs ∧
    (s.suicide a).1.refund = s.refund ∧
    (s.suicide a).1.snapshots = s.snapshots := by
  have hex := h
  unfold VMState.exist getAccount at hex
  simp only [beq_iff_eq] at hex
  obtain ⟨v, hg, hlen⟩ : ∃ v, s.accounts.get a = some v ∧ v.length = 41 := by
    cases hgv : s.accounts.get a with
    | none => simp [hgv] at hex
    | some v => exact ⟨v, rfl, by simpa [hgv] using hex⟩
  have hacct : getAccount s.accounts a = (v, true) := by
    simp [getAccount, hg, hlen, pad_eq_self]
  by_cases hs : acctSuicided v = true
  · have hres : s.suicide a = (s, false) := by
      simp [VMState.suicide, hacct, hs]
    refine ⟨?_, ?_, ?_⟩ <;> simp [hres, VMState.hasSuicided, hacct, hs, h]
  · have hres : s.suicide a =
        ({ s with accounts := s.accounts.insert a (v.set 40 1) }, true) := by
      simp [VMState.suicide, hacct, hs]
    have hget1 : (s.accounts.insert a (v.set 40 1)).get a = some (v.set 40 1) :=
      Tree.get_insert_self s.accounts a (v.set 40 1)
    have hlen1 : (v.set 40 1).length = 41 := by simp [hlen]
    have hacct1 : getAccount (s.accounts.insert a (v.set 40 1)) a = (v.set 40 1, true) := by
      simp [getAccount, hget1, hlen1, pad_eq_self]
    refine ⟨?_, ?_, ?_, ?_, ?_, ?_, ?_, ?_, ?_, ?_, ?_, ?_, ?_, ?_⟩
    · have h40 : (v.set 40 1).getD 40 0 = 1 := getD_set_self v 40 1 0 (by omega)
      simp only [List.getD, List.get?_eq_getElem?] at h40
      simp [hres, VMState.hasSuicided, hacct1, acctSuicided, h40]
    · simp [hres, VMState.exist, hacct1]
    · simp [hres, VMState.getBalance, hacct1, hacct, acctBalance,
            take_set_of_le v 40 32 1 (by omega)]
    · simp only [hres, VMState.getNonce, hacct1, hacct, acctNonce,
                 drop_set_of_le v 40 32 1 (by omega)]
      simp [take_set_of_le (v.drop 32) 8 8 1 (by omega)]
    · simp [hres, VMState.getCode]
    · intro b hb
      simp [hres, Tree.get_insert_ne s.accounts a b (v.set 40 1) hb]
    · simp [hres]
    · simp [hres]
    · simp [hres]
    · simp [hres]
    · simp [hres]
    · simp [hres]
    · simp [hres]
    · simp [hres]

/-- An account record with balance 5, nonce 7 and a clear suicide flag. -/
def acct41 : List Nat :=
  (List.replicate 31 0 ++ [5]) ++ ((List.replicate 7 0 ++ [7]) ++ [0])

/-- A sample 20-byte address. -/
def addrA : List Nat := List.replicate 20 1

/-- A state holding the one sample account. -/
def vmOneAcct : VMState := { emptyVM with accounts := Tree.empty.insert addrA acct41 }

/-- Witness for claim C7 at a concrete state and address. -/
theorem suicide_frame_witness :
    vmOneAcct.exist addrA = true ∧
    (vmOneAcct.suicide addrA).1.hasSuicided addrA = true :=
  ⟨by decide, (suicide_frame vmOneAcct addrA (by decide)).1⟩

/-- Claim C3: if the EVM call or create inside `Mine` errors, `Mine`
returns that error and performs no state change of its own — the state is
exactly what the interpreter left (`Pending`, and with it the transaction
list and gas-used, is untouched; the `Transactions` and `Receipts` trees
are exactly the interpreter's, nothing inserted). -/
theorem mine_error_frame (evm : VMState → VMState × EvmRes) (c : Chain) (tx : Tx)
    (e : String) (h : (evm c.state.vm).2.err = some e) :
    (Chain.mine evm c tx).2 = Except.error e ∧
    (Chain.mine evm c tx).1.state.vm = (evm c.state.vm).1 ∧
    (Chain.mine evm c tx).1.state.pending = c.state.pending ∧
    (Chain.mine evm c tx).1.state.vm.transactions = (evm c.state.vm).1.transactions ∧
    (Chain.mine evm c tx).1.state.vm.receipts = (evm c.state.vm).1.receipts ∧
    (Chain.mine evm c tx).1.state.blocks = c.state.blocks ∧
    (Chain.mine evm c tx).1.block2snap = c.block2snap ∧
    (Chain.mine evm c tx).1.filters = c.filters := by
  unfold Chain.mine
  simp [h]

/-- The genesis pending block of `NewChain` (number 100, synthetic hash). -/
def block100 : Block :=
  { number := 100, hash := n2h 100, parent := List.replicate 32 0,
    gasLimit := 6000000, gasUsed := 0, transactions := [], timestamp := 0,
    difficulty := 100 }

/-- A fresh chain as produced by `NewChain`. -/
def chain0 : Chain :=
  { state := { vm := emptyVM, pending := block100, blocks := Tree.empty },
    block2snap := [], filtcount := 0, filters := [] }

/-- An EVM run that fails with a revert error and leaves the state alone. -/
def evmFails : VMState → VMState × EvmRes :=
  fun s => (s, { ret := [], addr := [], gasLeft := 0, err := some "revert" })

/-- An EVM run that succeeds, returns no data and consumes all gas. -/
def evmOk : VMState → VMState × EvmRes :=
  fun s => (s, { ret := [], addr := [], gasLeft := 0, err := none })

/-- A plain value-transfer transaction. -/
def tx0 : Tx :=
  { toAddr := some (List.replicate 20 2), fromAddr := addrA, gas := 21000,
    value := 1, input := [], txIndex := none, block := [], blockNumber := 0,
    hash := [] }

/-- Witness for claim C3 at a concrete chain and failing EVM run. -/
theorem mine_error_frame_witness :
    (evmFails chain0.state.vm).2.err = some "revert" ∧
    (Chain.mine evmFails chain0 tx0).2 = Except.error "revert" :=
  ⟨rfl, (mine_error_frame evmFails chain0 tx0 "revert" rfl).1⟩

set_option maxRecDepth 100000 in
/-- Claim C2 as stated is false: the hash `Mine` assigns and returns is not
`keccak256(le_u64(blocknum | txidx << 48))` — the code hashes that digest a
second time (`seth.HashBytes(bh[:])` where `bh = n2h(...)`).  At block 100,
transaction index 0, the two differ. -/
theorem mine_txhash_counterexample :
    (Chain.mine evmOk chain0 tx0).2 =
      Except.ok ([], keccak256 (n2h (100 ||| (0 <<< 48)))) ∧
    keccak256 (n2h (100 ||| (0 <<< 48))) ≠ n2h (100 ||| (0 <<< 48)) := by
  constructor
  · rfl
  · decide

/-- Claim C2 amended: the transaction hash `Mine` assigns and returns is
the Keccak-256 of the synthetic hash `n2h(blocknum | (tx_index << 48))`,
i.e. `keccak256(keccak256(le_u64(blocknum | (tx_index << 48))))`, with
`tx_index` the transaction's position in the pending block; the hash is
also appended to the pending block's transaction list. -/
theorem mine_txhash (evm : VMState → VMState × EvmRes) (c : Chain) (tx : Tx)
    (h : (evm c.state.vm).2.err = none) :
    (Chain.mine evm c tx).2 =
      Except.ok ((evm c.state.vm).2.ret,
        hashBytes (n2h ((c.state.pending.number % 2 ^ 64) |||
          ((c.state.pending.transactions.length <<< 48) % 2 ^ 64)))) ∧
    (Chain.mine evm c tx).1.state.pending.transactions =
      c.state.pending.transactions ++
        [hashBytes (n2h ((c.state.pending.number % 2 ^ 64) |||
          ((c.state.pending.transactions.length <<< 48) % 2 ^ 64)))] := by
  unfold Chain.mine
  simp [h]

/-- Witness for the amended claim C2 at a concrete chain and transaction. -/
theorem mine_txhash_witness :
    (evmOk chain0.state.vm).2.err = none ∧
    (Chain.mine evmOk chain0 tx0).2 =
      Except.ok ((evmOk chain0.state.vm).2.ret,
        hashBytes (n2h ((chain0.state.pending.number % 2 ^ 64) |||
          ((chain0.state.pending.transactions.length <<< 48) % 2 ^ 64)))) :=
  ⟨rfl, (mine_txhash evmOk chain0 tx0 rfl).1⟩

/-- A filter-creation request: resolved from- and to-blocks, address and
topic criteria. -/
structure FilterReq where
  fromBlock : Int
  toBlock : Int
  addr : Option (List Nat)
  topics : List (Option (List Nat))
deriving DecidableEq

/-- Run a sequence of `newFilter` requests, collecting each outcome (a
failed request leaves the chain unchanged, as in the source). -/
def runNewFilters : Chain → List FilterReq → List (Except String Nat)
  | _, [] => []
  | c, r :: rest =>
    match c.newFilter r.fromBlock r.toBlock r.addr r.topics with
    | .error e => .error e :: runNewFilters c rest
    | .ok p => .ok p.1 :: runNewFilters p.2 rest

/-- Whether an outcome is an error. -/
def isErrorB {α : Type} : Except String α → Bool
  | .error _ => true
  | .ok _ => false

/-- The successfully allocated ids of a list of outcomes, in order. -/
def okIds : List (Except String Nat) → List Nat
  | [] => []
  | .ok id :: rest => id :: okIds rest
  | .error _ :: rest => okIds rest

theorem runNewFilters_ids_gt (c : Chain) (reqs : List FilterReq) :
    ∀ id ∈ okIds (runNewFilters c reqs), c.filtcount < id := by
  induction reqs generalizing c with
  | nil => simp [runNewFilters, okIds]
  | cons r rest ih =>
    by_cases hft : r.fromBlock > r.toBlock
    · simpa [runNewFilters, Chain.newFilter, hft, okIds] using ih c
    · simp only [runNewFilters, Chain.newFilter, hft, if_neg, ite_false, okIds,
                 List.mem_cons]
      rintro id (rfl | hid)
      · omega
      · have := ih _ id hid
        simp only at this
        omega

theorem runNewFilters_pairwise (c : Chain) (reqs : List FilterReq) :
    List.Pairwise (· < ·) (okIds (runNewFilters c reqs)) := by
  induction reqs generalizing c with
  | nil => simp [runNewFilters, okIds]
  | cons r rest ih =>
    by_cases hft : r.fromBlock > r.toBlock
    · simpa [runNewFilters, Chain.newFilter, hft, okIds] using ih c
    · simp only [runNewFilters, Chain.newFilter, hft, if_neg, ite_false, okIds]
      refine List.Pairwise.cons ?_ (ih _)
      intro id hid
      have := runNewFilters_ids_gt _ rest id hid
      simp only at this
      omega

/-- Claim C5: the three block tags resolve to `-1` (pending), `-2`
(latest) and `0` (earliest); a filter-creation request errors exactly when
the resolved from-block exceeds the resolved to-block; and each
successfully returned filter id is strictly greater than every id returned
before it. -/
theorem newFilter_spec (c : Chain) (reqs : List FilterReq) :
    (unmarshalBlocknum "\"pending\"" = Except.ok (-1) ∧
     unmarshalBlocknum "\"latest\"" = Except.ok (-2) ∧
     unmarshalBlocknum "\"earliest\"" = Except.ok 0) ∧
    (runNewFilters c reqs).map isErrorB =
      reqs.map (fun r => decide (r.fromBlock > r.toBlock)) ∧
    List.Pairwise (· < ·) (okIds (runNewFilters c reqs)) := by
  refine ⟨⟨rfl, rfl, rfl⟩, ?_, runNewFilters_pairwise c reqs⟩
  induction reqs generalizing c with
  | nil => rfl
  | cons r rest ih =>
    by_cases hft : r.fromBlock > r.toBlock <;>
      simp [runNewFilters, Chain.newFilter, hft, isErrorB, ih]

/-- Go's `gross`: decode one raw parameter into a target, keeping the
target's previous (zero) value when decoding fails — `marshal` discards
`gross`'s error. -/
def gross {J V : Type} (dec : J → Option V) (x : J) (y : V) : V :=
  (dec x).getD y

/-- Go's `marshal`: error on an arity mismatch, otherwise decode each
parameter positionally with `gross` (whose result is the final value of
each target, its zero value when the decode fails). -/
def marshal {J V : Type} (params : List J) (tos : List ((J → Option V) × V)) :
    Except String (List V) :=
  if params.length ≠ tos.length then .error "wrong parameter count"
  else .ok (List.zipWith (fun p dv => gross dv.1 p dv.2) params tos)

/-- Claim C10: with matching arity, parameter decoding never errors — a
parameter that fails to decode is silently ignored and the corresponding
argument keeps its zero value; only an arity mismatch yields a decode
error. -/
theorem marshal_spec {J V : Type} (params : List J)
    (tos : List ((J → Option V) × V)) :
    ((∃ e, marshal params tos = Except.error e) ↔ params.length ≠ tos.length) ∧
    (params.length = tos.length →
      marshal params tos =
        Except.ok (List.zipWith (fun p dv =>
          match dv.1 p with
          | some v => v
          | none => dv.2) params tos)) := by
  constructor
  · constructor
    · rintro ⟨e, he⟩
      by_contra hlen
      simp [marshal, hlen] at he
    · intro hlen
      refine ⟨"wrong parameter count", ?_⟩
      simp [marshal, hlen]
  · intro hlen
    have hfun : (fun (p : J) (dv : (J → Option V) × V) => gross dv.1 p dv.2)
        = fun p dv =>
            match dv.1 p with
            | some v => v
            | none => dv.2 := by
      funext p dv
      unfold gross
      cases dv.1 p <;> simp
    simp [marshal, hlen, hfun]

/-- A decoder standing in for `json.Unmarshal` into a numeric target: it
accepts only the text `5`. -/
def decNat : String → Option Nat := fun s => if s = "5" then some 5 else none

/-- Witness for claim C10: two parameters, the second of which fails to
decode and keeps its zero value 7. -/
theorem marshal_spec_witness :
    (["5", "x"] : List String).length =
      ([(decNat, 0), (decNat, 7)] : List ((String → Option Nat) × Nat)).length ∧
    marshal ["5", "x"] [(decNat, 0), (decNat, 7)] = Except.ok [5, 7] := by
  refine ⟨rfl, ?_⟩
  have h := (marshal_spec ["5", "x"] [(decNat, 0), (decNat, 7)]).2 rfl
  rw [h]
  rfl

/-- Append freshly emitted logs to a chain's state (`gethState.AddLog`
performed by EVM execution between filter polls). -/
def Chain.withLogs (c : Chain) (ls : List Log) : Chain :=
  { c with state :=
      { c.state with vm := { c.state.vm with logs := c.state.vm.logs ++ ls } } }

/-- The filter with its cursor advanced by `k` (the in-place
`filt.lastlog += len(sub)` of the source). -/
def Filter.advance (filt : Filter) (k : Nat) : Filter :=
  { filt with lastlog := filt.lastlog + k }

/-- The chain after `filterChanges` has advanced the cursor of filter
`fd`. -/
def Chain.advanceFilter (c : Chain) (fd : Nat) (filt : Filter) : Chain :=
  let filt1 := filt.advance (c.state.vm.logs.drop filt.lastlog).length
  { c with filters := setA c.filters fd filt1 }

theorem filterChanges_eq (c : Chain) (fd : Nat) (filt : Filter)
    (h : lookupA c.filters fd = some filt) :
    c.filterChanges fd =
      Except.ok ((c.state.vm.logs.drop filt.lastlog).filter filt.matches,
        c.advanceFilter fd filt) := by
  simp only [Chain.filterChanges, h]
  rfl

/-- Claim C8: for an installed filter id, `get_filter_changes` returns
exactly the matching logs among those appended since the filter's cursor,
in log order, and advances the cursor to the end of the log array; hence an
immediate second call returns the empty list, and after new logs are
appended the next call returns exactly the matching ones among them. -/
theorem filterChanges_spec (c : Chain) (fd : Nat) (filt : Filter)
    (h : lookupA c.filters fd = some filt)
    (hle : filt.lastlog ≤ c.state.vm.logs.length) :
    ∃ c', c.filterChanges fd =
        Except.ok ((c.state.vm.logs.drop filt.lastlog).filter filt.matches, c') ∧
      c'.state.vm.logs = c.state.vm.logs ∧
      (c'.filterChanges fd).map Prod.fst = Except.ok [] ∧
      (∀ ls, ((c'.withLogs ls).filterChanges fd).map Prod.fst =
        Except.ok (ls.filter filt.matches)) := by
  have hm : Filter.matches (filt.advance (c.state.vm.logs.drop filt.lastlog).length)
      = Filter.matches filt := rfl
  have hl1 : (filt.advance (c.state.vm.logs.drop filt.lastlog).length).lastlog
      = c.state.vm.logs.length := by
    simp only [Filter.advance, List.length_drop]
    omega
  have hlook : lookupA (c.advanceFilter fd filt).filters fd
      = some (filt.advance (c.state.vm.logs.drop filt.lastlog).length) :=
    lookupA_setA_self c.filters fd _
  refine ⟨c.advanceFilter fd filt, filterChanges_eq c fd filt h, rfl, ?_, ?_⟩
  · rw [filterChanges_eq (c.advanceFilter fd filt) fd _ hlook]
    have hstate : (c.advanceFilter fd filt).state = c.state := rfl
    rw [hstate, hl1]
    simp only [List.drop_length, List.filter_nil]
    rfl
  · intro ls
    have hlook2 : lookupA ((c.advanceFilter fd filt).withLogs ls).filters fd
        = some (filt.advance (c.state.vm.logs.drop filt.lastlog).length) := hlook
    rw [filterChanges_eq ((c.advanceFilter fd filt).withLogs ls) fd _ hlook2]
    have hstate : ((c.advanceFilter fd filt).withLogs ls).state.vm.logs
        = c.state.vm.logs ++ ls := rfl
    rw [hstate, hl1, hm]
    simp only [List.drop_left]
    rfl

/-- A filter that accepts logs of blocks 0 through 1000. -/
def filtW : Filter :=
  { fromBlock := 0, toBlock := 1000, addr := none, topics := [], lastlog := 0 }

/-- A sample log emitted at block 100. -/
def logW : Log := { address := addrA, topics := [], data := [], blockNumber := 100 }

/-- A chain with one installed filter and one log in its state. -/
def chainF : Chain :=
  { state := { vm := { emptyVM with logs := [logW] }, pending := block100,
               blocks := Tree.empty },
    block2snap := [], filtcount := 1, filters := [(1, filtW)] }

/-- Witness for claim C8 at a concrete chain, filter and log. -/
theorem filterChanges_spec_witness :
    lookupA chainF.filters 1 = some filtW ∧
    filtW.lastlog ≤ chainF.state.vm.logs.length ∧
    (∃ c', chainF.filterChanges 1 =
        Except.ok ((chainF.state.vm.logs.drop filtW.lastlog).filter filtW.matches, c') ∧
      c'.state.vm.logs = chainF.state.vm.logs ∧
      (c'.filterChanges 1).map Prod.fst = Except.ok [] ∧
      (∀ ls, ((c'.withLogs ls).filterChanges 1).map Prod.fst =
        Except.ok (ls.filter filtW.matches))) :=
  ⟨by decide, by decide, filterChanges_spec chainF 1 filtW (by decide) (by decide)⟩

/-- Claim C9 as stated is false: on a fresh chain (pending number 100,
empty `block2snap`), `AtBlock(99)` — a number other than `-1`, `-2` and the
pending number, with no `block2snap` entry — returns the receiver chain
itself (the `pending - 1` switch case falls through to the pending case),
not absent. -/
theorem atBlock_counterexample :
    chain0.block2snap = [] ∧
    chain0.state.pending.number = 100 ∧
    chain0.atBlock 99 = some chain0 :=
  ⟨rfl, rfl, rfl⟩

/-- Claim C9 amended: `AtBlock(-1)` and `AtBlock(pending)` return the
receiver unchanged; `AtBlock(-2)` and `AtBlock(pending - 1)` return the
chain reconstructed from `block2snap[pending - 1]` and the stored block
when that entry exists, and otherwise fall through and return the receiver
unchanged; every other `n` with no `block2snap` entry yields absent. -/
theorem atBlock_spec (c : Chain) :
    c.atBlock ((c.state.pending.number : Int)) = some c ∧
    (0 < c.state.pending.number → c.atBlock (-1) = some c) ∧
    (lookupA c.block2snap ((c.state.pending.number : Int) - 1) = none →
      c.atBlock (-2) = some c ∧
      c.atBlock ((c.state.pending.number : Int) - 1) = some c) ∧
    (∀ s, lookupA c.block2snap ((c.state.pending.number : Int) - 1) = some s →
      c.atBlock (-2) = c.atBlockSnap ((c.state.pending.number : Int) - 1) s ∧
      c.atBlock ((c.state.pending.number : Int) - 1) =
        c.atBlockSnap ((c.state.pending.number : Int) - 1) s) ∧
    (∀ n : Int, n ≠ -1 → n ≠ -2 → n ≠ (c.state.pending.number : Int) →
      n ≠ (c.state.pending.number : Int) - 1 →
      lookupA c.block2snap n = none → c.atBlock n = none) := by
  have hp : (0 : Int) ≤ (c.state.pending.number : Int) := Int.ofNat_nonneg _
  refine ⟨?_, ?_, ?_, ?_, ?_⟩
  · simp only [Chain.atBlock]
    rw [if_neg (by omega)]
    simp
  · intro h0
    have h1 : (1 : Int) ≤ (c.state.pending.number : Int) := by exact_mod_cast h0
    simp only [Chain.atBlock]
    rw [if_neg (by omega)]
    simp
  · intro hnone
    constructor
    · simp only [Chain.atBlock]
      simp [hnone]
    · simp only [Chain.atBlock]
      simp [hnone]
  · intro s hs
    constructor
    · simp only [Chain.atBlock]
      simp [hs]
    · simp only [Chain.atBlock]
      simp [hs]
  · intro n h1 h2 h3 h4 hnone
    simp only [Chain.atBlock]
    rw [if_neg (by omega), if_neg (by omega), hnone]

/-- A chain on which block 100 has been sealed (pending is now 101). -/
def chainS : Chain := chain0.seal 0

/-- Witness for the amended claim C9: on `chainS`, `block2snap` knows block
100 (= pending − 1), and `AtBlock(-2)` reconstructs the chain at it. -/
theorem atBlock_spec_witness :
    lookupA chainS.block2snap ((chainS.state.pending.number : Int) - 1) = some 0 ∧
    chainS.atBlock (-2) =
      chainS.atBlockSnap ((chainS.state.pending.number : Int) - 1) 0 :=
  ⟨by decide, ((atBlock_spec chainS).2.2.2.1 0 (by decide)).1⟩

end Tevm
